import Mathlib

/-!
Verification development for the comma-sync chunked media transfer pipeline.

The definitions below are a shallow embedding of the TypeScript source:

* `splitPart` / `splitVideoToChunks` embed `splitVideoToChunks` from
  `src/upload-routes.ts` (the revision with the single-flight queue).
  Times are rationals (seconds); the realized output size of extracting a
  time range is an oracle `sizeOf : ℚ → ℚ → ℕ` standing for the ffmpeg
  stream-copy extraction followed by `stat`.  The recursion is fuelled:
  `none` means the recursion did not finish within the given fuel.
* `Database`, `advanceLedger`, `markProcessed`, `videoFilter`,
  `uploadRouteVideoModel` embed the progress-ledger structure in `db.ts`
  and its uses in `upload-routes.ts`; JS objects keyed by strings are
  association lists with insert-or-replace update (`setKey`).
* `QStep` is a small-step semantics of the single-worker upload queue
  (`generateTelegramQueue`), `processBody` the effect trace of one loop
  iteration of its worker.
* `resourceGuard` embeds the scratch-storage backpressure gate in
  `uploadToTelegram`; JS numbers are `Option ℚ` with `none` playing NaN.
* `saveDBOps` / `getDBModel` embed `saveDB` / `getDB` from `db.ts`.
-/

/-! ### Chunk planner (splitVideoToChunks, src/upload-routes.ts) -/

/-- Fixed shrink decrement, `const deltaEndTime = 120` in `splitVideoToChunks`. -/
def deltaEndTime : ℚ := 120

/-- Nominal chunk window, the `30 * 60` appearing in `splitVideoToChunks`. -/
def nominalWindow : ℚ := 30 * 60

/-- Parameters of one `splitVideoToChunks` run: the probed duration, the byte
cap (`chunkSize`, default `TELEGRAM_CHUNK_SIZE`), the ledger resume point
(`uploadedUntil`) and the extraction-size oracle (ffmpeg extraction of
`[s, e)` followed by `stat(output).size`). -/
structure PlanParams where
  duration : ℚ
  chunkSize : ℕ
  uploadedUntil : ℚ
  sizeOf : ℚ → ℚ → ℕ

/-- One-to-one embedding of the recursive `splitPart(startTime, endTime)`
closure of `splitVideoToChunks` (src/upload-routes.ts).  The result is
`some (chunks, extractions)`: the list of `(startTime, endTime)` ranges
passed to `onChunkComplete`, together with the number of ffmpeg extractions
performed; `none` is returned when the recursion does not terminate within
`fuel` calls.

Source control flow, per call:
1. `if (uploadedUntil >= duration || endTime > duration)` resolve;
2. extract `[startTime, endTime)` and stat the output;
3. `if (outputSize > chunkSize)` and `if (endTime - deltaEndTime < endTime)`
   retry from the same start with `endTime - deltaEndTime`;
4. otherwise yield the chunk, and stop if
   `Math.abs(endTime - duration) <= 2 || startTime >= endTime || endTime >= duration`,
   else recurse with `(endTime, Math.min(endTime + 30 * 60, duration))`. -/
def splitPart (p : PlanParams) : ℕ → ℚ → ℚ → Option (List (ℚ × ℚ) × ℕ)
  | 0, _, _ => none
  | fuel + 1, s, e =>
    if p.uploadedUntil ≥ p.duration ∨ e > p.duration then
      some ([], 0)
    else if p.sizeOf s e > p.chunkSize ∧ e - deltaEndTime < e then
      (splitPart p fuel s (e - deltaEndTime)).map (fun r => (r.1, r.2 + 1))
    else if |e - p.duration| ≤ 2 ∨ s ≥ e ∨ e ≥ p.duration then
      some ([(s, e)], 1)
    else
      (splitPart p fuel e (min (e + nominalWindow) p.duration)).map
        (fun r => ((s, e) :: r.1, r.2 + 1))

/-- Entry point of `splitVideoToChunks`: the initial call is
`splitPart(uploadedUntil, Math.min(duration, uploadedUntil + 30 * 60))`. -/
def splitVideoToChunks (p : PlanParams) (fuel : ℕ) : Option (List (ℚ × ℚ) × ℕ) :=
  splitPart p fuel p.uploadedUntil (min p.duration (p.uploadedUntil + nominalWindow))

/-- The shrink guard of the source, `if (endTime - deltaEndTime < endTime)`,
compares the shrunk end against the old end instead of against `startTime`,
so it holds for every `endTime`: the "cannot shrink further" branch is
unreachable. -/
theorem shrink_guard_tautology (e : ℚ) : e - deltaEndTime < e := by
  unfold deltaEndTime
  linarith

/-- When every extraction of a range realizes a size above the cap and the
resume point is below the duration, `splitPart` takes the shrink branch on
every call and never terminates, whatever the fuel. -/
theorem splitPart_oversized_none (p : PlanParams)
    (hover : ∀ s e, p.sizeOf s e > p.chunkSize) (hud : p.uploadedUntil < p.duration) :
    ∀ fuel s e, e ≤ p.duration → splitPart p fuel s e = none := by
  intro fuel
  induction fuel with
  | zero => intro s e _; rfl
  | succ n ih =>
    intro s e he
    unfold splitPart
    rw [if_neg (by push_neg; exact ⟨hud, he⟩),
      if_pos ⟨hover s e, shrink_guard_tautology e⟩,
      ih s (e - deltaEndTime) (le_trans (le_of_lt (shrink_guard_tautology e)) he)]
    rfl

/-- Claim C7: when the ledger resume point is at least the probed duration,
the planner resolves immediately with an empty plan: no chunks are yielded
and no ffmpeg extraction is performed. -/
theorem C7_resume_past_duration_empty_plan (p : PlanParams) (fuel : ℕ)
    (h : p.uploadedUntil ≥ p.duration) :
    splitVideoToChunks p (fuel + 1) = some ([], 0) := by
  unfold splitVideoToChunks splitPart
  rw [if_pos (Or.inl h)]

/-! ### Progress ledger (db.ts) and its uses in upload-routes.ts -/

/-- Association-list lookup, embedding `obj[key]` on a JS object. -/
def lookupKey {α : Type} : List (String × α) → String → Option α
  | [], _ => none
  | (k₁, v) :: t, k => if k₁ = k then some v else lookupKey t k

/-- Association-list update, embedding `{ ...obj, [key]: v }`: replace the
value at the key in place, or append the key when absent. -/
def setKey {α : Type} : List (String × α) → String → α → List (String × α)
  | [], k, v => [(k, v)]
  | (k₁, v₁) :: t, k, v => if k₁ = k then (k, v) :: t else (k₁, v₁) :: setKey t k v

theorem lookupKey_setKey {α : Type} (l : List (String × α)) (k : String) (v : α) :
    lookupKey (setKey l k v) k = some v := by
  induction l with
  | nil => simp [setKey, lookupKey]
  | cons p t ih =>
    obtain ⟨k₁, v₁⟩ := p
    by_cases h : k₁ = k
    · simp [setKey, h, lookupKey]
    · simp [setKey, h, lookupKey, ih]

/-- The `telegram: { uploadedUntil }` object of a camera entry. -/
structure TelegramInfo where
  uploadedUntil : ℚ
deriving DecidableEq

/-- One camera's record in the ledger (db.ts / upload-routes.ts usage). -/
structure CameraEntry where
  downloadedAt : Option String := none
  processedAt : Option String := none
  telegram : Option TelegramInfo := none
deriving DecidableEq

/-- One route's record: `{ routeId, cameras }`. -/
structure RouteEntry where
  routeId : String
  cameras : List (String × CameraEntry)
deriving DecidableEq

/-- The persisted ledger structure of db.ts. -/
structure Database where
  version : ℕ
  routes : List (String × RouteEntry)
deriving DecidableEq

/-- `DEFAULT_DB = { version: 1, routes: {} }` from db.ts. -/
def DEFAULT_DB : Database := ⟨1, []⟩

/-- The optional chain `db.routes[routeId]?.cameras?.[camera]`. -/
def lookupCamera (db : Database) (r c : String) : Option CameraEntry :=
  (lookupKey db.routes r).bind fun route => lookupKey route.cameras c

/-- `db.routes[routeId]?.cameras?.[camera]?.telegram?.uploadedUntil || 0`. -/
def getUploadedUntil (db : Database) (r c : String) : ℚ :=
  (((lookupCamera db r c).bind CameraEntry.telegram).map TelegramInfo.uploadedUntil).getD 0

/-- The queue worker's ledger update on transport success
(`generateTelegramQueue`, upload-routes.ts): reload the stored value, take
`Math.max(endTime, uploadedUntil)`, and write the route back, preserving the
other cameras of the route and the other fields of this camera. -/
def advanceLedger (db : Database) (r c : String) (endTime : ℚ) : Database :=
  let uploadedUntil := getUploadedUntil db r c
  let oldCameras := ((lookupKey db.routes r).map RouteEntry.cameras).getD []
  let oldCam := (lookupKey oldCameras c).getD {}
  { db with
    routes := setKey db.routes r
      ⟨r, setKey oldCameras c { oldCam with telegram := some ⟨max endTime uploadedUntil⟩ }⟩ }

/-- A sequence of `advance` operations for one `(routeId, camera)` key, each
reloading the latest stored ledger before merging, applied in order. -/
def applyAdvances (db : Database) (r c : String) (l : List ℚ) : Database :=
  l.foldl (fun d x => advanceLedger d r c x) db

theorem getUploadedUntil_advanceLedger (db : Database) (r c : String) (x : ℚ) :
    getUploadedUntil (advanceLedger db r c x) r c = max x (getUploadedUntil db r c) := by
  conv_lhs => rw [getUploadedUntil, lookupCamera, advanceLedger]
  simp [lookupKey_setKey]

theorem getUploadedUntil_applyAdvances (db : Database) (r c : String) (l : List ℚ) :
    getUploadedUntil (applyAdvances db r c l) r c =
      l.foldl (fun a x => max x a) (getUploadedUntil db r c) := by
  induction l generalizing db with
  | nil => rfl
  | cons x t ih =>
    simp only [applyAdvances, List.foldl] at *
    rw [ih (advanceLedger db r c x), getUploadedUntil_advanceLedger]

theorem foldr_max_pull (x a : ℚ) (t : List ℚ) :
    t.foldr max (max x a) = max x (t.foldr max a) := by
  induction t with
  | nil => rfl
  | cons y s ih => simp only [List.foldr]; rw [ih, max_left_comm]

theorem foldl_max_eq_foldr (a : ℚ) (l : List ℚ) :
    l.foldl (fun acc x => max x acc) a = l.foldr max a := by
  induction l generalizing a with
  | nil => rfl
  | cons x t ih => simp only [List.foldl, List.foldr]; rw [ih, foldr_max_pull]

theorem foldr_max_perm (a : ℚ) {l l' : List ℚ} (h : l.Perm l') :
    l.foldr max a = l'.foldr max a := by
  induction h with
  | nil => rfl
  | cons x _ ih => simp only [List.foldr]; rw [ih]
  | swap x y t => simp only [List.foldr]; rw [max_left_comm]
  | trans _ _ ih1 ih2 => rw [ih1, ih2]

theorem foldr_max_mem (l : List ℚ) (hne : l ≠ []) (hpos : ∀ x ∈ l, 0 ≤ x) :
    l.foldr max 0 ∈ l := by
  induction l with
  | nil => exact absurd rfl hne
  | cons x t ih =>
    cases t with
    | nil =>
      simp only [List.foldr]
      rw [max_eq_left (hpos x (List.mem_singleton_self x))]
      exact List.mem_singleton_self x
    | cons y s =>
      rcases max_choice x ((y :: s).foldr max 0) with h | h
      · simp only [List.foldr] at h ⊢
        rw [h]
        exact List.mem_cons_self x _
      · simp only [List.foldr] at h ⊢
        rw [h]
        exact List.mem_cons_of_mem x
          (ih (List.cons_ne_nil y s) (fun z hz => hpos z (List.mem_cons_of_mem x hz)))

theorem le_foldr_max (l : List ℚ) : ∀ x ∈ l, x ≤ l.foldr max 0 := by
  induction l with
  | nil => intro x hx; exact absurd hx (List.not_mem_nil x)
  | cons y t ih =>
    intro x hx
    rcases List.mem_cons.mp hx with rfl | hx
    · exact le_max_left _ _
    · exact le_trans (ih x hx) (le_max_right _ _)

/-- Claim C2: starting from a ledger with no recorded progress for the key,
applying any sequence of advance operations in any order leaves as the
stored `uploadedUntil` exactly the largest candidate ever submitted: each
advance reloads the stored value, merges with `max`, and persists, so the
outcome is order-independent and equals a member of the candidate list
bounding all others. -/
theorem C2_ledger_merge_max (db : Database) (r c : String) (l l' : List ℚ)
    (hperm : l.Perm l') (h0 : getUploadedUntil db r c = 0)
    (hpos : ∀ x ∈ l, 0 ≤ x) (hne : l ≠ []) :
    getUploadedUntil (applyAdvances db r c l') r c = l.foldr max 0 ∧
      l.foldr max 0 ∈ l ∧ ∀ x ∈ l, x ≤ l.foldr max 0 := by
  refine ⟨?_, foldr_max_mem l hne hpos, le_foldr_max l⟩
  rw [getUploadedUntil_applyAdvances, h0, foldl_max_eq_foldr,
    foldr_max_perm 0 hperm.symm]

/-- Witness for C2: the spec's out-of-order scenario — candidates 1200 and
1800 arriving in either order leave 1800 in the ledger. -/
theorem C2_witness :
    List.Perm [(1200 : ℚ), 1800] [1800, 1200] ∧
      getUploadedUntil DEFAULT_DB "r" "ecamera" = 0 ∧
      (∀ x ∈ [(1200 : ℚ), 1800], 0 ≤ x) ∧
      [(1200 : ℚ), 1800] ≠ [] ∧
      (getUploadedUntil (applyAdvances DEFAULT_DB "r" "ecamera" [1800, 1200]) "r" "ecamera" =
          [(1200 : ℚ), 1800].foldr max 0 ∧
        [(1200 : ℚ), 1800].foldr max 0 ∈ [(1200 : ℚ), 1800] ∧
        ∀ x ∈ [(1200 : ℚ), 1800], x ≤ [(1200 : ℚ), 1800].foldr max 0) := by
  have hperm : List.Perm [(1200 : ℚ), 1800] [1800, 1200] := List.Perm.swap 1800 1200 []
  have h0 : getUploadedUntil DEFAULT_DB "r" "ecamera" = 0 := rfl
  have hpos : ∀ x ∈ [(1200 : ℚ), 1800], 0 ≤ x := by
    intro x hx
    rcases List.mem_cons.mp hx with rfl | hx
    · norm_num
    · rcases List.mem_cons.mp hx with rfl | hx
      · norm_num
      · exact absurd hx (List.not_mem_nil x)
  exact ⟨hperm, h0, hpos, List.cons_ne_nil _ _,
    C2_ledger_merge_max DEFAULT_DB "r" "ecamera" [1200, 1800] [1800, 1200]
      hperm h0 hpos (List.cons_ne_nil _ _)⟩

/-- Truthiness test `db.routes[routeId]?.cameras?.[camera]?.processedAt`
used by `getVideosToUpload` (a JS string is truthy iff nonempty). -/
def hasProcessedAt (db : Database) (r c : String) : Bool :=
  match (lookupCamera db r c).bind CameraEntry.processedAt with
  | some t => if t = "" then false else true
  | none => false

/-- The per-file predicate of `getVideosToUpload` (upload-routes.ts): keep
`.mp4` files whose name matches the route regex with truthy `routeId` and
`camera` captures and whose ledger entry is not yet marked processed.  The
regex match `/(.*)--(.*)-(.*).mp4/` destructured to `(routeId, camera)` is
abstracted as `parse`. -/
def videoFilter (parse : String → Option (String × String)) (db : Database)
    (file : String) : Bool :=
  if !file.endsWith ".mp4" then false
  else
    match parse file with
    | none => false
    | some (r, c) =>
      if r = "" ∨ c = "" then false
      else if hasProcessedAt db r c then false else true

/-- `getVideosToUpload` (upload-routes.ts): filter the directory listing. -/
def getVideosToUpload (parse : String → Option (String × String)) (db : Database)
    (files : List String) : List String :=
  files.filter (videoFilter parse db)

/-- Final ledger write of `uploadRouteVideo` (upload-routes.ts): set
`processedAt` to the current time for the `(routeId, camera)` pair,
preserving all other fields. -/
def markProcessed (db : Database) (r c : String) (now : String) : Database :=
  let oldCameras := ((lookupKey db.routes r).map RouteEntry.cameras).getD []
  let oldCam := (lookupKey oldCameras c).getD {}
  { db with
    routes := setKey db.routes r
      ⟨r, setKey oldCameras c { oldCam with processedAt := some now }⟩ }

/-- Outcome of one `uploadRouteVideo` call: the ledger it persists last, and
whether a Telegram upload was attempted. -/
structure UploadResult where
  db : Database
  uploadAttempted : Bool

/-- `uploadRouteVideo(fileName)` (upload-routes.ts): parse the name; on an
invalid name return without touching the ledger; otherwise run the Telegram
upload only when the transport is enabled (`IS_TELEGRAM_ENABLED`), and in
either case mark the `(routeId, camera)` pair processed in the ledger state
read at the end (`dbAtEnd`). -/
def uploadRouteVideoModel (parse : String → Option (String × String))
    (telegramOn : Bool) (dbAtEnd : Database) (file now : String) : UploadResult :=
  match parse file with
  | none => ⟨dbAtEnd, false⟩
  | some (r, c) =>
    if r = "" ∨ c = "" then ⟨dbAtEnd, false⟩
    else ⟨markProcessed dbAtEnd r c now, telegramOn⟩

theorem hasProcessedAt_markProcessed (db : Database) (r c now : String)
    (hnow : now ≠ "") : hasProcessedAt (markProcessed db r c now) r c = true := by
  unfold markProcessed hasProcessedAt lookupCamera
  simp [lookupKey_setKey, hnow]

/-- Claim C10: after `uploadRouteVideo` runs for a file whose name parses to
a truthy `(routeId, camera)`, the ledger it leaves has `processedAt` set for
that pair; when the transport is disabled no upload is attempted at all; and
every later `getVideosToUpload` pass over that ledger excludes the file. -/
theorem C10_processed_and_excluded (parse : String → Option (String × String))
    (telegramOn : Bool) (db : Database) (file now r c : String)
    (hp : parse file = some (r, c)) (hr : r ≠ "") (hc : c ≠ "") (hnow : now ≠ "") :
    hasProcessedAt (uploadRouteVideoModel parse telegramOn db file now).db r c = true ∧
      (telegramOn = false →
        (uploadRouteVideoModel parse telegramOn db file now).uploadAttempted = false) ∧
      videoFilter parse (uploadRouteVideoModel parse telegramOn db file now).db file = false ∧
      ∀ files : List String,
        file ∉ getVideosToUpload parse (uploadRouteVideoModel parse telegramOn db file now).db files := by
  have hres : uploadRouteVideoModel parse telegramOn db file now =
      ⟨markProcessed db r c now, telegramOn⟩ := by
    simp [uploadRouteVideoModel, hp, hr, hc]
  rw [hres]
  have hfilter : videoFilter parse (markProcessed db r c now) file = false := by
    unfold videoFilter
    cases hmp : file.endsWith ".mp4" with
    | false => simp [hmp]
    | true => simp [hmp, hp, hr, hc, hasProcessedAt_markProcessed db r c now hnow]
  refine ⟨hasProcessedAt_markProcessed db r c now hnow, fun h => h ▸ rfl, hfilter, ?_⟩
  intro files hmem
  have := List.of_mem_filter hmem
  rw [hfilter] at this
  exact Bool.false_ne_true this

/-- Witness for C10 at a concrete input: the name parses to route `"r"` and
camera `"ecamera"`, the transport is disabled, and the updated default
ledger excludes the file from any later discovery pass. -/
theorem C10_witness :
    (fun s => if s = "r--0-ecamera.mp4" then some ("r", "ecamera") else none)
        "r--0-ecamera.mp4" = some ("r", "ecamera") ∧
      ("r" : String) ≠ "" ∧ ("ecamera" : String) ≠ "" ∧ ("2024-05-01" : String) ≠ "" ∧
      (hasProcessedAt
          (uploadRouteVideoModel
            (fun s => if s = "r--0-ecamera.mp4" then some ("r", "ecamera") else none)
            false DEFAULT_DB "r--0-ecamera.mp4" "2024-05-01").db "r" "ecamera" = true ∧
        (false = false →
          (uploadRouteVideoModel
            (fun s => if s = "r--0-ecamera.mp4" then some ("r", "ecamera") else none)
            false DEFAULT_DB "r--0-ecamera.mp4" "2024-05-01").uploadAttempted = false) ∧
        videoFilter
            (fun s => if s = "r--0-ecamera.mp4" then some ("r", "ecamera") else none)
            (uploadRouteVideoModel
              (fun s => if s = "r--0-ecamera.mp4" then some ("r", "ecamera") else none)
              false DEFAULT_DB "r--0-ecamera.mp4" "2024-05-01").db "r--0-ecamera.mp4" = false ∧
        ∀ files : List String,
          "r--0-ecamera.mp4" ∉
            getVideosToUpload
              (fun s => if s = "r--0-ecamera.mp4" then some ("r", "ecamera") else none)
              (uploadRouteVideoModel
                (fun s => if s = "r--0-ecamera.mp4" then some ("r", "ecamera") else none)
                false DEFAULT_DB "r--0-ecamera.mp4" "2024-05-01").db files) := by
  refine ⟨by simp, by simp, by simp, by simp, ?_⟩
  exact C10_processed_and_excluded
    (fun s => if s = "r--0-ecamera.mp4" then some ("r", "ecamera") else none)
    false DEFAULT_DB "r--0-ecamera.mp4" "2024-05-01" "r" "ecamera"
    (by simp) (by simp) (by simp) (by simp)

/-! ### Ledger persistence and load (db.ts) -/

/-- The ledger file content guaranteed by `verifyDBFile` (db.ts): an
existing file is kept; a missing file is created holding the serialized
default database. -/
def verifyDBFileContent (ser : Database → String) (file : Option String) : String :=
  match file with
  | some s => s
  | none => ser DEFAULT_DB

/-- `getDB` (db.ts): ensure the ledger file exists, read and parse it; any
failure falls into the catch, which runs `saveDB(DEFAULT_DB)` and returns
`DEFAULT_DB`.  The result pairs the returned database with the ledger file
content after the call; `parse` and `ser` stand for `JSON.parse` and
`JSON.stringify`. -/
def getDBModel (parse : String → Option Database) (ser : Database → String)
    (file : Option String) : Database × String :=
  let s := verifyDBFileContent ser file
  match parse s with
  | some db => (db, s)
  | none => (DEFAULT_DB, ser DEFAULT_DB)

/-- Claim C9: a failed ledger load (missing file or unparsable content) does
not propagate the error: `getDB` returns the empty default database and the
ledger file afterwards holds the serialized default, erasing every
previously recorded value. -/
theorem C9_failed_load_resets_ledger (parse : String → Option Database)
    (ser : Database → String) (file : Option String)
    (hround : parse (ser DEFAULT_DB) = some DEFAULT_DB)
    (hfail : file = none ∨ ∃ s, file = some s ∧ parse s = none) :
    getDBModel parse ser file = (DEFAULT_DB, ser DEFAULT_DB) := by
  rcases hfail with rfl | ⟨s, rfl, hs⟩
  · simp [getDBModel, verifyDBFileContent, hround]
  · simp [getDBModel, verifyDBFileContent, hs]

/-- Witness for C9 at a concrete input: a ledger file holding unparsable
content is replaced by the serialized default database. -/
theorem C9_witness :
    (fun s => if s = "default" then some DEFAULT_DB else none) "default" = some DEFAULT_DB ∧
      (some "corrupt" = (none : Option String) ∨
        ∃ s, (some "corrupt" : Option String) = some s ∧
          (fun t => if t = "default" then some DEFAULT_DB else none) s = none) ∧
      getDBModel (fun s => if s = "default" then some DEFAULT_DB else none)
          (fun _ => "default") (some "corrupt") = (DEFAULT_DB, "default") := by
  refine ⟨by simp, Or.inr ⟨"corrupt", rfl, by simp⟩, ?_⟩
  exact C9_failed_load_resets_ledger
    (fun s => if s = "default" then some DEFAULT_DB else none)
    (fun _ => "default") (some "corrupt") (by simp)
    (Or.inr ⟨"corrupt", rfl, by simp⟩)

/-- File-system operations performed by db.ts when persisting the ledger. -/
inductive FSOp
  | access (path : String)
  | mkdirRec (path : String)
  | writeFile (path content : String)
  | rename (src dst : String)
deriving DecidableEq

/-- Trace of `verifyDBFile` (db.ts): `access(DB_PATH)`; when the file is
missing, the data directory is created and the serialized default database
written to `DB_PATH`. -/
def verifyDBFileOps (dbPath dataPath defaultSer : String) (dbExists : Bool) : List FSOp :=
  if dbExists then [.access dbPath]
  else [.access dbPath, .mkdirRec dataPath, .writeFile dbPath defaultSer]

/-- Trace of `saveDB(db)` (db.ts): `verifyDBFile()` followed by a single
direct `writeFile(DB_PATH, JSON.stringify(db, null, 2))`. -/
def saveDBOps (dbPath dataPath defaultSer : String) (dbExists : Bool)
    (serContent : String) : List FSOp :=
  verifyDBFileOps dbPath dataPath defaultSer dbExists ++ [.writeFile dbPath serContent]

/-- Spec-side predicate, written from the spec's words (§6): a persist that
writes the full structure to a temporary location and atomically replaces
the ledger file — some write targets a path other than the ledger path and
that path is then renamed over the ledger path. -/
def atomicReplacePersist (dbPath : String) (ops : List FSOp) : Prop :=
  ∃ tmp content, tmp ≠ dbPath ∧ FSOp.writeFile tmp content ∈ ops ∧
    FSOp.rename tmp dbPath ∈ ops

/-- Claim C8 as stated is false: `saveDB` performs a single direct write to
the ledger path; its trace contains no rename and no write to a temporary
location, so it is not an atomic temp-and-replace persist. -/
theorem C8_counterexample_direct_write :
    saveDBOps "data/db.json" "data" "default" true "ledger" =
        [FSOp.access "data/db.json", FSOp.writeFile "data/db.json" "ledger"] ∧
      ¬ atomicReplacePersist "data/db.json"
          (saveDBOps "data/db.json" "data" "default" true "ledger") := by
  refine ⟨rfl, ?_⟩
  rintro ⟨tmp, content, hne, hw, hr⟩
  simp [saveDBOps, verifyDBFileOps] at hr

/-- Claim C8, amended: every persist of the ledger serializes the full
structure and writes it in one direct `writeFile` to the ledger path — the
final operation of the trace — with no temporary file and no atomic rename,
so the durability guarantee claimed by the spec is absent. -/
theorem C8_amended_single_direct_write (dbPath dataPath defaultSer serContent : String)
    (dbExists : Bool) :
    (saveDBOps dbPath dataPath defaultSer dbExists serContent).getLast? =
        some (FSOp.writeFile dbPath serContent) ∧
      ∀ a b, FSOp.rename a b ∉ saveDBOps dbPath dataPath defaultSer dbExists serContent := by
  cases dbExists <;> simp [saveDBOps, verifyDBFileOps]

/-! ### Scratch-storage backpressure gate (uploadToTelegram, upload-routes.ts) -/

/-- `typeof x === 'number'` for the parsed configuration value
`MAX_TMP_GB = Number(process-env string)`: `Number(...)` always produces a
JS number — `NaN` (modelled `none`) when the variable is absent or
non-numeric — so the test holds for every configuration. -/
def typeofIsNumber (x : Option ℚ) : Bool :=
  match x with
  | some _ => true
  | none => true

/-- JS `<` with `none` as `NaN`: every comparison against `NaN` is false. -/
def jsLt (a b : Option ℚ) : Bool :=
  match a, b with
  | some x, some y => decide (x < y)
  | _, _ => false

/-- JS multiplication by a constant; `NaN * c = NaN`. -/
def jsMul (a : Option ℚ) (c : ℚ) : Option ℚ := a.map (· * c)

/-- The `setInterval` polling loop of the gate: resolve at the first poll
whose observed scratch size is below the byte cap; `none` when no poll
within `fuel` resolves. -/
def pollUntilBelow (capBytes : Option ℚ) (sizes : ℕ → ℚ) : ℕ → ℕ → Option ℕ
  | 0, _ => none
  | fuel + 1, i =>
    if jsLt (some (sizes i)) capBytes then some i
    else pollUntilBelow capBytes sizes fuel (i + 1)

/-- The scratch-storage gate at the head of `uploadToTelegram`: when
`typeof config.MAX_TMP_GB === 'number'` the 5-second polling loop runs
until the observed size drops below `MAX_TMP_GB * 1024 * 1024 * 1024`;
otherwise the gate is skipped. -/
def resourceGuard (maxTmpGB : Option ℚ) (sizes : ℕ → ℚ) (fuel : ℕ) : Option ℕ :=
  if typeofIsNumber maxTmpGB then
    pollUntilBelow (jsMul maxTmpGB (1024 * 1024 * 1024)) sizes fuel 0
  else some 0

theorem pollUntilBelow_nan (sizes : ℕ → ℚ) :
    ∀ fuel i, pollUntilBelow none sizes fuel i = none := by
  intro fuel
  induction fuel with
  | zero => intro i; rfl
  | succ n ih => intro i; simp [pollUntilBelow, jsLt, ih]

/-- Claim C6, failing input: with no scratch-storage cap configured,
`config.MAX_TMP_GB` is `Number(undefined) = NaN`, whose JS type is still
`'number'`, so the gate is not skipped; every poll compares the observed
size against `NaN * 1024³ = NaN`, which is false, so the gate never
resolves regardless of the observed sizes — the opposite of the claimed
no-op. -/
theorem C6_unconfigured_cap_blocks_forever (sizes : ℕ → ℚ) (fuel : ℕ) :
    resourceGuard none sizes fuel = none := by
  simp [resourceGuard, typeofIsNumber, jsMul, pollUntilBelow_nan sizes]

/-! ### Single-flight upload queue (generateTelegramQueue, upload-routes.ts) -/

/-- An item of the Telegram upload queue, without its `resolve` handle. -/
structure QueueItem where
  filePath : String
  caption : Option String := none
  routeId : String
  camera : String
  endTime : ℚ
deriving DecidableEq

/-- Phases of the queue's single `process()` loop: `idle` between items (or
sleeping on an empty queue), `sending` while the `sendVideo` transport call
is awaited, `updating` between the transport's return and the completion of
the ledger merge, chunk deletion, `queue.shift()` and `resolve`. -/
inductive WorkerPC
  | idle
  | sending
  | updating
deriving DecidableEq

/-- Global queue state: the queue contents, the worker phase, and the number
of transport calls currently in flight. -/
structure QueueState where
  queue : List QueueItem
  pc : WorkerPC
  inFlight : ℕ

/-- Initial state: `generateTelegramQueue()` is evaluated once at module
load with an empty queue and starts exactly one `process()` loop. -/
def initQueueState : QueueState := ⟨[], .idle, 0⟩

/-- Interleaving semantics of the queue: producers may `addToQueue` at any
time; the single worker starts a transport call only from `idle` on a
nonempty queue, and completes the head item (ledger merge or error log,
shift, resolve) before becoming idle again. -/
inductive QStep : QueueState → QueueState → Prop
  | enqueue (s : QueueState) (v : QueueItem) :
      QStep s ⟨s.queue ++ [v], s.pc, s.inFlight⟩
  | startSend (s : QueueState) (h : s.pc = .idle) (hne : s.queue ≠ []) :
      QStep s ⟨s.queue, .sending, s.inFlight + 1⟩
  | transportReturn (s : QueueState) (h : s.pc = .sending) :
      QStep s ⟨s.queue, .updating, s.inFlight - 1⟩
  | completeItem (s : QueueState) (h : s.pc = .updating) :
      QStep s ⟨s.queue.tail, .idle, s.inFlight⟩

/-- States reachable from the initial queue state under any interleaving of
producers and the single worker. -/
def QueueReachable (s : QueueState) : Prop :=
  Relation.ReflTransGen QStep initQueueState s

theorem queue_inFlight_eq (s : QueueState) (h : QueueReachable s) :
    s.inFlight = (if s.pc = WorkerPC.sending then 1 else 0) := by
  induction h with
  | refl => rfl
  | tail _ hbc ih =>
    cases hbc with
    | enqueue v => simpa using ih
    | startSend ht hne => simp_all
    | transportReturn ht => simp_all
    | completeItem ht => simp_all

/-- Claim C4: in every reachable state of the queue, under any interleaving
of enqueues from any number of producers, at most one transport call is in
flight: the single worker holds the only in-flight call while `sending` and
finishes the item's ledger side-effect before starting the next. -/
theorem C4_single_transport_in_flight (s : QueueState) (h : QueueReachable s) :
    s.inFlight ≤ 1 := by
  rw [queue_inFlight_eq s h]
  split <;> norm_num

/-- Witness for C4: a concrete reachable state — one item enqueued and its
transport call started — has exactly one call in flight. -/
theorem C4_witness :
    QueueReachable ⟨[⟨"chunk.mp4", none, "r", "ecamera", 1800⟩], WorkerPC.sending, 1⟩ ∧
      (⟨[⟨"chunk.mp4", none, "r", "ecamera", 1800⟩], WorkerPC.sending, 1⟩ : QueueState).inFlight ≤ 1 := by
  have h1 : QStep initQueueState ⟨[⟨"chunk.mp4", none, "r", "ecamera", 1800⟩], .idle, 0⟩ :=
    QStep.enqueue initQueueState ⟨"chunk.mp4", none, "r", "ecamera", 1800⟩
  have h2 : QStep ⟨[⟨"chunk.mp4", none, "r", "ecamera", 1800⟩], .idle, 0⟩
      ⟨[⟨"chunk.mp4", none, "r", "ecamera", 1800⟩], .sending, 1⟩ :=
    QStep.startSend ⟨[⟨"chunk.mp4", none, "r", "ecamera", 1800⟩], .idle, 0⟩ rfl
      (List.cons_ne_nil _ _)
  have hreach : QueueReachable ⟨[⟨"chunk.mp4", none, "r", "ecamera", 1800⟩], .sending, 1⟩ :=
    Relation.ReflTransGen.tail (Relation.ReflTransGen.tail Relation.ReflTransGen.refl h1) h2
  exact ⟨hreach, C4_single_transport_in_flight _ hreach⟩

/-- Observable effects of one iteration of the queue worker's loop body. -/
inductive WorkerEffect
  | sendVideo
  | advanceLedgerEffect
  | deleteChunk
  | logError
  | shiftQueue
  | resolveItem
  | rejectItem
deriving DecidableEq

/-- Effect trace of one iteration of `process()` in `generateTelegramQueue`,
as a function of whether the awaited `sendVideo` transport call succeeds:
the try block sends, merge-advances the ledger and deletes the chunk file;
the catch block only logs the error and the chunk size; in both cases the
worker then runs `queue.shift()` and calls the item's `resolve`.  The item
carries no rejection handle, so `rejectItem` is never emitted. -/
def processBody (sendOk : Bool) : List WorkerEffect :=
  if sendOk then
    [.sendVideo, .advanceLedgerEffect, .deleteChunk, .shiftQueue, .resolveItem]
  else
    [.sendVideo, .logError, .shiftQueue, .resolveItem]

/-- Claim C5 as stated is false: on transport failure the worker still
resolves the item's completion promise — it is never rejected (the queue
item exposes no rejection handle) — while the chunk file is indeed kept and
the worker moves on. -/
theorem C5_counterexample_failure_resolves :
    processBody false = [.sendVideo, .logError, .shiftQueue, .resolveItem] ∧
      WorkerEffect.rejectItem ∉ processBody false ∧
      WorkerEffect.resolveItem ∈ processBody false ∧
      WorkerEffect.deleteChunk ∉ processBody false := by
  refine ⟨rfl, ?_, ?_, ?_⟩ <;> decide

/-- Claim C5, amended: for every queue item, the completion promise is
resolved whether the transport call succeeds or fails (never rejected), the
worker always continues to the next queue position, and exactly on success
the ledger is merge-advanced and the chunk file deleted; on failure the
chunk file is kept. -/
theorem C5_amended_completion_outcomes (sendOk : Bool) :
    WorkerEffect.resolveItem ∈ processBody sendOk ∧
      WorkerEffect.rejectItem ∉ processBody sendOk ∧
      WorkerEffect.shiftQueue ∈ processBody sendOk ∧
      (WorkerEffect.deleteChunk ∈ processBody sendOk ↔ sendOk = true) ∧
      (WorkerEffect.advanceLedgerEffect ∈ processBody sendOk ↔ sendOk = true) := by
  cases sendOk <;> decide

/-- Witness for C7 at a concrete input: duration 3700, resume point 3700. -/
theorem C7_witness :
    (3700 : ℚ) ≥ 3700 ∧
      splitVideoToChunks ⟨3700, 1, 3700, fun _ _ => 0⟩ 10 = some ([], 0) :=
  ⟨le_refl _, C7_resume_past_duration_empty_plan ⟨3700, 1, 3700, fun _ _ => 0⟩ 9 (le_refl _)⟩

/-- Contiguity of two consecutive produced ranges: the first range's end is
the second range's start. -/
def chunkContiguous (q r : ℚ × ℚ) : Prop := q.2 = r.1

/-- Spec-side predicate, written from the spec's words (§3 and §8): the
produced ranges are contiguous, nonempty, start at `a` and end exactly at
`b`, i.e. they union to exactly the interval from `a` to `b` with no gaps
or overlaps.  Used to compare the claim as stated against the planner. -/
def unionExactly (l : List (ℚ × ℚ)) (a b : ℚ) : Prop :=
  List.Chain' chunkContiguous l ∧
    l.head?.map Prod.fst = some a ∧
    l.getLast?.map Prod.snd = some b ∧
    ∀ q ∈ l, q.1 < q.2

/-- Geometry of the planner when no realized size exceeds the cap: a
terminating run from a start below the duration yields nonempty, bounded,
contiguous ranges beginning at the start, whose final end time lies within
the source's 2-second epsilon below the duration (it need not reach the
duration itself). -/
theorem splitPart_geometry (p : PlanParams)
    (hsize : ∀ s e, p.sizeOf s e ≤ p.chunkSize) (hud : p.uploadedUntil < p.duration) :
    ∀ fuel s l n, 0 ≤ s → s < p.duration →
      splitPart p fuel s (min (s + nominalWindow) p.duration) = some (l, n) →
      (∀ q ∈ l, 0 ≤ q.1 ∧ q.1 < q.2 ∧ q.2 ≤ p.duration) ∧
        List.Chain' chunkContiguous l ∧
        l.head?.map Prod.fst = some s ∧
        ∃ E, l.getLast?.map Prod.snd = some E ∧ p.duration - 2 ≤ E ∧ E ≤ p.duration := by
  intro fuel
  induction fuel with
  | zero => intro s l n _ _ h; simp [splitPart] at h
  | succ m ih =>
    intro s l n hs0 hsd hrun
    have hposW : (0 : ℚ) < nominalWindow := by norm_num [nominalWindow]
    have heds : s < min (s + nominalWindow) p.duration := lt_min (by linarith) hsd
    have hedd : min (s + nominalWindow) p.duration ≤ p.duration := min_le_right _ _
    simp only [splitPart] at hrun
    rw [if_neg (by push_neg; exact ⟨hud, hedd⟩),
      if_neg (fun h => absurd h.1 (not_lt.mpr (hsize s _)))] at hrun
    by_cases hstop :
        |min (s + nominalWindow) p.duration - p.duration| ≤ 2 ∨
          s ≥ min (s + nominalWindow) p.duration ∨
          min (s + nominalWindow) p.duration ≥ p.duration
    · rw [if_pos hstop] at hrun
      injection hrun with hpair
      injection hpair with hl hn
      subst hl
      refine ⟨?_, ?_, ?_, min (s + nominalWindow) p.duration, ?_, ?_, hedd⟩
      · intro q hq
        rw [List.mem_singleton] at hq
        subst hq
        exact ⟨hs0, heds, hedd⟩
      · exact List.chain'_singleton _
      · rfl
      · rfl
      · rcases hstop with h | h | h
        · have := abs_le.mp h
          linarith [this.1]
        · exact absurd heds (not_lt.mpr h)
        · linarith
    · rw [if_neg hstop] at hrun
      push_neg at hstop
      obtain ⟨-, -, hlt⟩ := hstop
      cases hrec : splitPart p m (min (s + nominalWindow) p.duration)
          (min (min (s + nominalWindow) p.duration + nominalWindow) p.duration) with
      | none => rw [hrec] at hrun; exact absurd hrun (by simp)
      | some r =>
        obtain ⟨l', n'⟩ := r
        rw [hrec, Option.map_some'] at hrun
        injection hrun with hpair
        injection hpair with hl hn
        subst hl
        obtain ⟨hwf', hchain', hhead', E, hlast', hE1, hE2⟩ :=
          ih (min (s + nominalWindow) p.duration) l' n'
            (le_trans hs0 (le_of_lt heds)) hlt hrec
        cases l' with
        | nil => simp at hhead'
        | cons y t =>
          have hy1 : y.1 = min (s + nominalWindow) p.duration := by
            simpa using hhead'
          refine ⟨?_, ?_, ?_, E, ?_, hE1, hE2⟩
          · intro q hq
            rcases List.mem_cons.mp hq with hq | hq
            · subst hq; exact ⟨hs0, heds, hedd⟩
            · exact hwf' q hq
          · exact List.chain'_cons'.mpr
              ⟨fun b hb => by
                  rw [List.head?_cons, Option.mem_def, Option.some.injEq] at hb
                  subst hb
                  exact hy1.symm,
                hchain'⟩
          · rfl
          · rw [List.getLast?_cons_cons]
            exact hlast'

/-- Claim C3 as stated is false: the planner stops as soon as the end time is
within 2 seconds of the duration, so the produced ranges need not union to
the full interval.  With duration 1801 s, a huge cap and resume point 0, the
plan is the single range `(0, 1800)`, leaving the final second uncovered. -/
theorem C3_counterexample_epsilon_gap :
    (splitVideoToChunks ⟨1801, 1, 0, fun _ _ => 0⟩ 1).map Prod.fst = some [(0, 1800)] ∧
      ¬ unionExactly [((0 : ℚ), (1800 : ℚ))] 0 1801 := by
  constructor
  · norm_num [splitVideoToChunks, splitPart, nominalWindow]
  · rintro ⟨-, -, hlast, -⟩
    simp only [List.getLast?_singleton, Option.map_some', Option.some.injEq] at hlast
    norm_num at hlast

/-- Claim C3, amended: when the realized extraction sizes never exceed the
cap, every terminating planner run from a resume point `0 ≤ resumeFrom <
duration` produces ranges with `0 ≤ startTime < endTime ≤ duration`,
consecutive ranges contiguous, starting exactly at the resume point, and
ending at some `E` with `duration - 2 ≤ E ≤ duration`: the union is exactly
`[resumeFrom, E]`, where the final range is clipped no more than the
2-second termination epsilon short of the duration. -/
theorem C3_amended_planner_geometry (p : PlanParams) (fuel : ℕ) (l : List (ℚ × ℚ)) (n : ℕ)
    (hsize : ∀ s e, p.sizeOf s e ≤ p.chunkSize) (h0 : 0 ≤ p.uploadedUntil)
    (hud : p.uploadedUntil < p.duration)
    (hrun : splitVideoToChunks p fuel = some (l, n)) :
    (∀ q ∈ l, 0 ≤ q.1 ∧ q.1 < q.2 ∧ q.2 ≤ p.duration) ∧
      List.Chain' chunkContiguous l ∧
      l.head?.map Prod.fst = some p.uploadedUntil ∧
      ∃ E, l.getLast?.map Prod.snd = some E ∧ p.duration - 2 ≤ E ∧ E ≤ p.duration := by
  unfold splitVideoToChunks at hrun
  rw [min_comm] at hrun
  exact splitPart_geometry p hsize hud fuel p.uploadedUntil l n h0 hud hrun

/-- Witness for the amended C3 at a concrete input: duration 1800, cap never
exceeded, resume point 0; the plan is the single range `(0, 1800)`. -/
theorem C3_amended_witness :
    (∀ s e : ℚ, (fun _ _ => (0 : ℕ)) s e ≤ 1) ∧ (0 : ℚ) ≤ 0 ∧ (0 : ℚ) < 1800 ∧
      splitVideoToChunks ⟨1800, 1, 0, fun _ _ => 0⟩ 1 = some ([(0, 1800)], 1) ∧
      ((∀ q ∈ [((0 : ℚ), (1800 : ℚ))], 0 ≤ q.1 ∧ q.1 < q.2 ∧ q.2 ≤ (1800 : ℚ)) ∧
        List.Chain' chunkContiguous [((0 : ℚ), (1800 : ℚ))] ∧
        [((0 : ℚ), (1800 : ℚ))].head?.map Prod.fst = some 0 ∧
        ∃ E, [((0 : ℚ), (1800 : ℚ))].getLast?.map Prod.snd = some E ∧
          (1800 : ℚ) - 2 ≤ E ∧ E ≤ 1800) := by
  have hrun : splitVideoToChunks ⟨1800, 1, 0, fun _ _ => 0⟩ 1 = some ([(0, 1800)], 1) := by
    norm_num [splitVideoToChunks, splitPart, nominalWindow]
  exact ⟨fun _ _ => Nat.zero_le 1, le_refl 0, by norm_num, hrun,
    C3_amended_planner_geometry ⟨1800, 1, 0, fun _ _ => 0⟩ 1 [(0, 1800)] 1
      (fun _ _ => Nat.zero_le 1) (le_refl 0) (by norm_num) hrun⟩

/-- Claim C1, failing input: duration 100 s, cap 50 bytes, resume point 0, and
content whose local bitrate makes every extracted range realize 100 bytes.
The planner shrinks the end time unboundedly (0 → 1800s window, then
1680, 1560, … past the start and below zero) and never yields a chunk,
never raises any irreducible-chunk error, and never terminates: the claimed
`ChunkTooLargeError` path does not exist in the code, because the guard
`endTime - deltaEndTime < endTime` is a tautology. -/
theorem C1_shrink_loop_never_terminates (fuel : ℕ) :
    splitVideoToChunks ⟨100, 50, 0, fun _ _ => 100⟩ fuel = none := by
  unfold splitVideoToChunks
  exact splitPart_oversized_none ⟨100, 50, 0, fun _ _ => 100⟩
    (fun _ _ => by norm_num) (by norm_num) fuel 0 _ (min_le_left _ _)
